import Mathlib

/-!
Verification development for the omynix-waybar-manager repository.

The Rust sources are shallowly embedded as Lean functions:
`src/cache.rs` (cache staleness decision), `src/monitor.rs` (monitor
output parsing and list comparison), `src/templates.rs` (template
marker parsing, comment stripping, per-monitor variant assignment)
and the relevant control flow of `src/main.rs` (single-mode monitor
narrowing and the lists handed to generation and launch).

Rust `String` values are embedded as Lean `String`; `Vec<String>`
as `List String`; `HashMap<String, TemplateType>` as an association
list with distinct keys together with a lookup function; fallible
functions return `Except`.
-/

namespace Waybar

/-- `TemplateType` from src/templates.rs. -/
inductive TemplateType where
  | Full : TemplateType
  | Simple : TemplateType
  | Custom : String → TemplateType
deriving DecidableEq

/-- `WindowManager` from src/window_manager.rs. -/
inductive WindowManager where
  | Hyprland : WindowManager
  | Mango : WindowManager
  | Niri : WindowManager
deriving DecidableEq

/-- `CacheEntry` from src/cache.rs. -/
structure CacheEntry where
  template_hash : String
  monitors : List String
  preferred_monitor : String
  timestamp : Int

/-- `Display` from src/config.rs. -/
structure Display where
  preferred_monitor : String
  available_monitors : List String
  mode : String

/-- `Config` from src/config.rs. -/
structure Config where
  display : Display

/-! ### Modelling Rust's `Vec<String>::sort()`

Rust sorts strings by byte-lexicographic order.  For valid UTF-8 this
coincides with lexicographic order on the scalar values, embedded here
as a boolean comparison on `List Char`. -/

/-- Lexicographic comparison of character lists by scalar value. -/
def lexLe : List Char → List Char → Bool
  | [], _ => true
  | _ :: _, [] => false
  | a :: as, b :: bs =>
    if a.toNat < b.toNat then true
    else if b.toNat < a.toNat then false
    else lexLe as bs

theorem lexLe_nil_left (l : List Char) : lexLe [] l = true := rfl

theorem lexLe_cons_iff (x y : Char) (xs ys : List Char) :
    lexLe (x :: xs) (y :: ys) = true ↔
      (x.toNat < y.toNat ∨ (x.toNat = y.toNat ∧ lexLe xs ys = true)) := by
  by_cases h1 : x.toNat < y.toNat
  · simp [lexLe, h1]
  · by_cases h2 : y.toNat < x.toNat
    · have hne : ¬ x.toNat = y.toNat := by omega
      simp [lexLe, h1, h2, hne]
    · have heq : x.toNat = y.toNat := by omega
      simp [lexLe, h1, h2, heq]

theorem lexLe_total (a b : List Char) : lexLe a b = true ∨ lexLe b a = true := by
  induction a generalizing b with
  | nil => exact Or.inl rfl
  | cons x xs ih =>
    cases b with
    | nil => exact Or.inr rfl
    | cons y ys =>
      by_cases h1 : x.toNat < y.toNat
      · exact Or.inl ((lexLe_cons_iff x y xs ys).mpr (Or.inl h1))
      · by_cases h2 : y.toNat < x.toNat
        · exact Or.inr ((lexLe_cons_iff y x ys xs).mpr (Or.inl h2))
        · have heq : x.toNat = y.toNat := by omega
          rcases ih ys with h | h
          · exact Or.inl ((lexLe_cons_iff x y xs ys).mpr (Or.inr ⟨heq, h⟩))
          · exact Or.inr ((lexLe_cons_iff y x ys xs).mpr (Or.inr ⟨heq.symm, h⟩))

theorem lexLe_antisymm (a b : List Char) (h1 : lexLe a b = true)
    (h2 : lexLe b a = true) : a = b := by
  induction a generalizing b with
  | nil =>
    cases b with
    | nil => rfl
    | cons y ys => simp [lexLe] at h2
  | cons x xs ih =>
    cases b with
    | nil => simp [lexLe] at h1
    | cons y ys =>
      rcases (lexLe_cons_iff x y xs ys).mp h1 with hlt | ⟨heq, hr⟩
      · rcases (lexLe_cons_iff y x ys xs).mp h2 with hltr | ⟨heqr, _⟩
        · omega
        · omega
      · rcases (lexLe_cons_iff y x ys xs).mp h2 with hltr | ⟨_, hrr⟩
        · omega
        · have hc : x = y := Char.ext (UInt32.ext heq)
          rw [hc, ih ys hr hrr]

theorem lexLe_trans (a b c : List Char) (h1 : lexLe a b = true)
    (h2 : lexLe b c = true) : lexLe a c = true := by
  induction a generalizing b c with
  | nil => exact rfl
  | cons x xs ih =>
    cases b with
    | nil => simp [lexLe] at h1
    | cons y ys =>
      cases c with
      | nil => simp [lexLe] at h2
      | cons z zs =>
        rcases (lexLe_cons_iff x y xs ys).mp h1 with hlt | ⟨heq, hr⟩ <;>
          rcases (lexLe_cons_iff y z ys zs).mp h2 with hlt2 | ⟨heq2, hr2⟩
        · exact (lexLe_cons_iff x z xs zs).mpr (Or.inl (Nat.lt_trans hlt hlt2))
        · exact (lexLe_cons_iff x z xs zs).mpr (Or.inl (by omega))
        · exact (lexLe_cons_iff x z xs zs).mpr (Or.inl (by omega))
        · exact (lexLe_cons_iff x z xs zs).mpr
            (Or.inr ⟨by omega, ih ys zs hr hr2⟩)

/-- The string order used by the embedded `sort()`. -/
def strLeR (a b : String) : Prop := lexLe a.data b.data = true

instance : DecidableRel strLeR :=
  fun a b => inferInstanceAs (Decidable (lexLe a.data b.data = true))

instance : IsTotal String strLeR := ⟨fun a b => lexLe_total a.data b.data⟩

instance : IsTrans String strLeR :=
  ⟨fun a b c h1 h2 => lexLe_trans a.data b.data c.data h1 h2⟩

instance : IsAntisymm String strLeR :=
  ⟨fun a b h1 h2 => String.ext (lexLe_antisymm a.data b.data h1 h2)⟩

/-- Embedding of `Vec<String>::sort()` as used in `should_regenerate`. -/
def sortStrings (l : List String) : List String := List.insertionSort strLeR l

/-- Two lists sort to the same result exactly when they are permutations:
the core fact behind the order-insensitive monitor-list comparison. -/
theorem sortStrings_eq_iff_perm (a b : List String) :
    sortStrings a = sortStrings b ↔ a.Perm b := by
  unfold sortStrings
  constructor
  · intro h
    exact ((List.perm_insertionSort strLeR a).symm.trans
      (h ▸ List.perm_insertionSort strLeR b))
  · intro h
    exact List.eq_of_perm_of_sorted
      ((List.perm_insertionSort strLeR a).trans
        (h.trans (List.perm_insertionSort strLeR b).symm))
      (List.sorted_insertionSort strLeR a)
      (List.sorted_insertionSort strLeR b)

/-! ### src/cache.rs -/

/-- `should_regenerate` from src/cache.rs (lines 68-107): early-return
cascade, with the monitor lists compared after sorting both. -/
def should_regenerate (cache : Option CacheEntry) (template_hash : String)
    (monitors : List String) (preferred_monitor : String)
    (generated_files_exist : Bool) : Bool :=
  match cache with
  | none => true
  | some c =>
    if generated_files_exist = false then true
    else if c.template_hash ≠ template_hash then true
    else if c.preferred_monitor ≠ preferred_monitor then true
    else if sortStrings c.monitors ≠ sortStrings monitors then true
    else false

/-! ### src/monitor.rs : list comparison -/

/-- `lists_match` from src/monitor.rs (lines 89-98): equal length and
equal `HashSet`s of elements. -/
def lists_match (list1 list2 : List String) : Bool :=
  if list1.length ≠ list2.length then false
  else decide (list1.toFinset = list2.toFinset)

/-! ### Text helpers modelling Rust string primitives -/

/-- Whitespace test modelling Rust `char::is_whitespace` / regex `\s`
(ASCII part; the exotic Unicode space classes are not modelled). -/
def isSpaceChar (c : Char) : Bool :=
  c = ' ' || c = '\t' || c = '\n' || c = '\r' ||
  c = '\x0b' || c = '\x0c'

/-- Split at newline characters, keeping empty segments. -/
def splitNl : List Char → List (List Char)
  | [] => [[]]
  | c :: rest =>
    if c = '\n' then [] :: splitNl rest
    else
      match splitNl rest with
      | [] => [[c]]
      | h :: t => (c :: h) :: t

/-- Drop one trailing carriage return, as Rust `str::lines` does. -/
def stripCR (l : List Char) : List Char :=
  match l.getLast? with
  | some c => if c = '\r' then l.dropLast else l
  | none => l

/-- Embedding of Rust `str::lines`: split on newline, drop the segment
after a trailing newline, strip one trailing carriage return per line. -/
def rustLines (s : String) : List String :=
  let parts := splitNl s.data
  let parts := if parts.getLast? = some [] then parts.dropLast else parts
  parts.map (fun l => String.mk (stripCR l))

/-- Embedding of Rust `str::trim` (both ends). -/
def trimChars (l : List Char) : List Char :=
  ((l.dropWhile isSpaceChar).reverse.dropWhile isSpaceChar).reverse

/-- `str::trim` on embedded strings. -/
def strTrim (s : String) : String := String.mk (trimChars s.data)

/-- Substring search on character lists, modelling Rust `str::contains`. -/
def containsSeq (pat : List Char) : List Char → Bool
  | [] => pat.isEmpty
  | c :: rest => pat.isPrefixOf (c :: rest) || containsSeq pat rest

/-- `str::contains` on embedded strings. -/
def strContains (hay pat : String) : Bool := containsSeq pat.data hay.data

/-! ### src/monitor.rs : parse_monitors -/

/-- Per-line extraction for Hyprland, modelling the regex
`^Monitor\s+(\S+)` from src/monitor.rs line 44. -/
def hyprlandLine (line : String) : Option String :=
  let l := line.data
  if ("Monitor".data).isPrefixOf l then
    let rest := l.drop 7
    if (rest.takeWhile isSpaceChar).isEmpty then none
    else
      let tok := (rest.dropWhile isSpaceChar).takeWhile (fun c => !isSpaceChar c)
      if tok.isEmpty then none else some (String.mk tok)
  else none

/-- Per-line extraction for Mango (src/monitor.rs lines 53-58): lines
containing `selmon`; first whitespace-delimited token. -/
def mangoLine (line : String) : Option String :=
  if strContains line "selmon" then
    let tok := (line.data.dropWhile isSpaceChar).takeWhile (fun c => !isSpaceChar c)
    if tok.isEmpty then none else some (String.mk tok)
  else none

/-- Per-line extraction for Niri, modelling the regex
`^Output\s+"[^"]*"\s+\(([^)]+)\)` from src/monitor.rs line 63. -/
def niriLine (line : String) : Option String :=
  let l := line.data
  if ("Output".data).isPrefixOf l then
    let r1 := l.drop 6
    if (r1.takeWhile isSpaceChar).isEmpty then none
    else
      match r1.dropWhile isSpaceChar with
      | '"' :: r2 =>
        let inner := r2.takeWhile (fun c => c ≠ '"')
        (match r2.drop inner.length with
          | '"' :: r3 =>
            if (r3.takeWhile isSpaceChar).isEmpty then none
            else
              (match r3.dropWhile isSpaceChar with
                | '(' :: r4 =>
                  let cap := r4.takeWhile (fun c => c ≠ ')')
                  if cap.isEmpty then none
                  else
                    (match r4.drop cap.length with
                      | ')' :: _ => some (String.mk cap)
                      | _ => none)
                | _ => none)
          | _ => none)
      | _ => none
  else none

/-- Dispatch of the per-window-manager line rule. -/
def extractLine (wm : WindowManager) (line : String) : Option String :=
  match wm with
  | WindowManager.Hyprland => hyprlandLine line
  | WindowManager.Mango => mangoLine line
  | WindowManager.Niri => niriLine line

/-- `parse_monitors` from src/monitor.rs (lines 38-77): push every
extracted identifier in line order, then fail if none were found. -/
def parse_monitors (wm : WindowManager) (output : String) :
    Except String (List String) :=
  let monitors := (rustLines output).foldl
    (fun acc line =>
      match extractLine wm line with
      | some m => acc ++ [m]
      | none => acc) []
  if monitors.isEmpty then Except.error "No monitors were detected"
  else Except.ok monitors

/-- The identifiers of the matching lines, in input order, without
deduplication: the reference result of the extraction rules. -/
def extractedMonitors (wm : WindowManager) (output : String) : List String :=
  (rustLines output).filterMap (extractLine wm)

/-- The Hyprland sample from the unit test of src/monitor.rs. -/
def hyprTestInput : String :=
  "Monitor eDP-1 (ID 0):\n\t1366x768@60.00500 at 1366x0\nMonitor HDMI-A-1 (ID 1):\n\t1920x1080@60.00 at 0x0"

/-! ### src/templates.rs : marker parsing and comment stripping -/

/-- `TemplateType::from_comment` from src/templates.rs (lines 26-37).
Note that the third branch strips `TPL:` from the *whole* comment
string, which in the loader still carries its leading `//`. -/
def TemplateType.from_comment (comment : String) : Option TemplateType :=
  if strContains comment "TPL:FULL" then some TemplateType.Full
  else if strContains comment "TPL:SIMPLE" then some TemplateType.Simple
  else if ("TPL:".data).isPrefixOf comment.data then
    some (TemplateType.Custom (String.mk (trimChars (comment.data.drop 4))))
  else none

/-- Marker collection loop of `parse_jsonc_templates`
(src/templates.rs lines 84-93): trimmed comment lines in file order. -/
def collectMarkers (content : String) : List TemplateType :=
  (rustLines content).foldl
    (fun acc line =>
      let t := strTrim line
      if ("//".data).isPrefixOf t.data then
        match TemplateType.from_comment t with
        | some tpl => acc ++ [tpl]
        | none => acc
      else acc) []

/-- String-literal copy loop of `parse_jsonc_templates`
(src/templates.rs lines 111-124): copy every character verbatim,
tracking backslash escapes, until an unescaped closing quote.
Returns the copied output and the remaining input. -/
def copyStringLit : List Char → Bool → List Char × List Char
  | [], _ => ([], [])
  | c :: rest, escaped =>
    if escaped then
      let p := copyStringLit rest false
      (c :: p.1, p.2)
    else if c = '\\' then
      let p := copyStringLit rest true
      (c :: p.1, p.2)
    else if c = '"' then ([c], rest)
    else
      let p := copyStringLit rest false
      (c :: p.1, p.2)

/-- Line-comment skip loop of `parse_jsonc_templates`
(src/templates.rs lines 101-110): drop until a newline, which is kept. -/
def dropLineComment : List Char → List Char × List Char
  | [] => ([], [])
  | c :: rest => if c = '\n' then (['\n'], rest) else dropLineComment rest

theorem copyStringLit_rest_length (l : List Char) (e : Bool) :
    (copyStringLit l e).2.length ≤ l.length := by
  induction l generalizing e with
  | nil => simp [copyStringLit]
  | cons c rest ih =>
    by_cases he : e
    · simpa [copyStringLit, he] using Nat.le_succ_of_le (ih false)
    · by_cases hb : c = '\\'
      · simpa [copyStringLit, he, hb] using Nat.le_succ_of_le (ih true)
      · by_cases hq : c = '"'
        · simp [copyStringLit, he, hb, hq]
        · simpa [copyStringLit, he, hb, hq] using Nat.le_succ_of_le (ih false)

theorem dropLineComment_rest_length (l : List Char) :
    (dropLineComment l).2.length ≤ l.length := by
  induction l with
  | nil => simp [dropLineComment]
  | cons c rest ih =>
    by_cases hn : c = '\n'
    · simp [dropLineComment, hn]
    · simpa [dropLineComment, hn] using Nat.le_succ_of_le ih

/-- Comment-stripping loop of `parse_jsonc_templates`
(src/templates.rs lines 95-130). -/
def stripComments : List Char → List Char
  | [] => []
  | '/' :: '/' :: rest =>
    let p := dropLineComment rest
    p.1 ++ stripComments p.2
  | '"' :: rest =>
    let p := copyStringLit rest false
    '"' :: (p.1 ++ stripComments p.2)
  | c :: rest => c :: stripComments rest
termination_by l => l.length
decreasing_by
  · have := dropLineComment_rest_length rest
    simp only [List.length_cons]
    omega
  · have := copyStringLit_rest_length rest false
    simp only [List.length_cons]
    omega
  · simp only [List.length_cons]
    omega

/-! ### src/templates.rs : assignment engine -/

/-- Association lists standing in for `HashMap<String, TemplateType>`. -/
abbrev Assign := List (String × TemplateType)

/-- The key set of an assignment map. -/
def keys (m : Assign) : List String := m.map Prod.fst

/-- `HashMap::insert`: replace the value at an existing key, otherwise
append a new binding. -/
def insertAssign (m : Assign) (k : String) (v : TemplateType) : Assign :=
  if m.any (fun p => decide (p.1 = k)) then
    m.map (fun p => if p.1 = k then (k, v) else p)
  else m ++ [(k, v)]

/-- `HashMap::get` on the association-list embedding. -/
def lookupA (k : String) : Assign → Option TemplateType
  | [] => none
  | (k1, v) :: rest => if k = k1 then some v else lookupA k rest

/-- The variant chosen for one monitor in the multi-monitor loop of
`determine_config_assignments` (src/templates.rs lines 229-235). -/
def variantFor (preferred monitor : String) : TemplateType :=
  if monitor = preferred then TemplateType.Full else TemplateType.Simple

/-- The multi-monitor insertion loop of `determine_config_assignments`. -/
def assignFold (preferred : String) (connected : List String) : Assign :=
  connected.foldl
    (fun acc monitor => insertAssign acc monitor (variantFor preferred monitor)) []

/-- `determine_config_assignments` from src/templates.rs (lines 216-239):
a single connected monitor always gets `Full`; otherwise the preferred
monitor gets `Full` and every other monitor gets `Simple`. -/
def determine_config_assignments (cfg : Config) (connected : List String) :
    Assign :=
  match connected with
  | [m] => [(m, TemplateType.Full)]
  | l => assignFold cfg.display.preferred_monitor l

/-! ### src/main.rs : single-mode narrowing in launch_waybar -/

/-- The `monitors_to_use` computation of `launch_waybar`
(src/main.rs lines 328-340).  In `single` mode the list is narrowed
to the preferred monitor, falling back to the first detected monitor;
`connected[0]` is modelled with `headD` since `parse_monitors`
guarantees a non-empty list. -/
def monitors_to_use (cfg : Config) (connected : List String) : List String :=
  if cfg.display.mode = "single" then
    if cfg.display.preferred_monitor ∈ connected then
      [cfg.display.preferred_monitor]
    else [connected.headD ""]
  else connected

/-- The monitor lists `launch_waybar` hands to its callees. -/
structure GenerationPlan where
  genMonitors : List String
  launchMonitors : List String

/-- `launch_waybar` (src/main.rs lines 362-420) passes the full
`connected` list to `generate_configs` (line 367) and the narrowed
`monitors_to_use` list to `launch_waybar_instances` (line 420). -/
def launch_waybar_plan (cfg : Config) (connected : List String) :
    GenerationPlan :=
  { genMonitors := connected
    launchMonitors := monitors_to_use cfg connected }

/-! ### Lemmas about the assignment-map embedding -/

theorem any_key_iff (m : Assign) (k : String) :
    (m.any (fun p => decide (p.1 = k))) = true ↔ k ∈ keys m := by
  simp [keys, List.any_eq_true]

theorem keys_insertAssign (m : Assign) (k : String) (v : TemplateType) :
    keys (insertAssign m k v) = if k ∈ keys m then keys m else keys m ++ [k] := by
  by_cases h : k ∈ keys m
  · rw [if_pos h]
    unfold insertAssign
    rw [if_pos ((any_key_iff m k).mpr h)]
    unfold keys
    rw [List.map_map]
    apply List.map_congr_left
    intro p hp
    by_cases hpk : p.1 = k
    · simp [hpk]
    · simp [hpk]
  · rw [if_neg h]
    unfold insertAssign
    rw [if_neg (fun hc => h ((any_key_iff m k).mp hc))]
    simp [keys]

theorem mem_keys_foldl (pref : String) (l : List String) (acc : Assign)
    (a : String) :
    a ∈ keys (l.foldl
        (fun acc monitor => insertAssign acc monitor (variantFor pref monitor))
        acc)
      ↔ a ∈ keys acc ∨ a ∈ l := by
  induction l generalizing acc with
  | nil => simp
  | cons x xs ih =>
    rw [List.foldl_cons, ih, keys_insertAssign]
    by_cases h : x ∈ keys acc
    · rw [if_pos h]
      simp only [List.mem_cons]
      constructor
      · rintro (h1 | h1)
        · exact Or.inl h1
        · exact Or.inr (Or.inr h1)
      · rintro (h1 | h1 | h1)
        · exact Or.inl h1
        · exact Or.inl (h1 ▸ h)
        · exact Or.inr h1
    · rw [if_neg h]
      simp only [List.mem_append, List.mem_cons, List.mem_singleton]
      tauto

theorem nodup_keys_foldl (pref : String) (l : List String) (acc : Assign)
    (h : (keys acc).Nodup) :
    (keys (l.foldl
        (fun acc monitor => insertAssign acc monitor (variantFor pref monitor))
        acc)).Nodup := by
  induction l generalizing acc with
  | nil => exact h
  | cons x xs ih =>
    rw [List.foldl_cons]
    apply ih
    rw [keys_insertAssign]
    by_cases hx : x ∈ keys acc
    · rw [if_pos hx]; exact h
    · rw [if_neg hx]
      simp [List.nodup_append, h, hx]

theorem shape_foldl (pref : String) (l : List String) (acc : Assign)
    (h : ∀ p ∈ acc, p.2 = variantFor pref p.1) :
    ∀ p ∈ l.foldl
        (fun acc monitor => insertAssign acc monitor (variantFor pref monitor))
        acc,
      p.2 = variantFor pref p.1 := by
  induction l generalizing acc with
  | nil => exact h
  | cons x xs ih =>
    rw [List.foldl_cons]
    apply ih
    intro p hp
    unfold insertAssign at hp
    by_cases hx : (acc.any (fun q => decide (q.1 = x))) = true
    · rw [if_pos hx] at hp
      rcases List.mem_map.mp hp with ⟨q, hq, hqe⟩
      subst hqe
      by_cases hqx : q.1 = x
      · simp [hqx]
      · simp only [if_neg hqx]
        exact h q hq
    · rw [if_neg hx] at hp
      rcases List.mem_append.mp hp with h1 | h1
      · exact h p h1
      · rcases List.mem_singleton.mp h1 with rfl
        rfl

theorem lookupA_eq_some (l : Assign) (k : String) (h : k ∈ keys l) :
    ∃ v, lookupA k l = some v ∧ (k, v) ∈ l := by
  induction l with
  | nil => simp [keys] at h
  | cons q rest ih =>
    obtain ⟨k1, v1⟩ := q
    by_cases hk : k = k1
    · subst hk
      exact ⟨v1, by simp [lookupA], by simp⟩
    · have hmem : k ∈ keys rest := by
        have : k ∈ keys ((k1, v1) :: rest) := h
        simp only [keys, List.map_cons, List.mem_cons] at this
        rcases this with h1 | h1
        · exact absurd h1 hk
        · exact h1
      rcases ih hmem with ⟨v, hv, hm⟩
      exact ⟨v, by simp [lookupA, hk, hv], List.mem_cons_of_mem _ hm⟩

theorem lookupA_assignFold (pref : String) (connected : List String)
    (k : String) (hmem : k ∈ connected) :
    lookupA k (assignFold pref connected) = some (variantFor pref k) := by
  have hk : k ∈ keys (assignFold pref connected) := by
    unfold assignFold
    rw [mem_keys_foldl]
    exact Or.inr hmem
  rcases lookupA_eq_some _ k hk with ⟨v, hv, hm⟩
  have hs := shape_foldl pref connected [] (by simp) (k, v) hm
  rw [hv]
  exact congrArg some hs

theorem countP_full (l : Assign) (pref : String)
    (hnd : (keys l).Nodup) (hm : pref ∈ keys l)
    (hshape : ∀ p ∈ l, p.2 = variantFor pref p.1) :
    l.countP (fun p => decide (p.2 = TemplateType.Full)) = 1 := by
  induction l with
  | nil => simp [keys] at hm
  | cons q rest ih =>
    obtain ⟨k1, v1⟩ := q
    have hv1 : v1 = variantFor pref k1 := hshape (k1, v1) (by simp)
    have hnd1 : k1 ∉ keys rest := by
      have : (k1 :: keys rest).Nodup := hnd
      exact (List.nodup_cons.mp this).1
    have hnd2 : (keys rest).Nodup := by
      have : (k1 :: keys rest).Nodup := hnd
      exact (List.nodup_cons.mp this).2
    by_cases h : k1 = pref
    · subst h
      have hfull : v1 = TemplateType.Full := by
        rw [hv1]; simp [variantFor]
      have hzero : rest.countP (fun p => decide (p.2 = TemplateType.Full)) = 0 := by
        rw [List.countP_eq_zero]
        intro p hp
        have hsh := hshape p (List.mem_cons_of_mem _ hp)
        have hne : p.1 ≠ k1 := by
          intro he
          exact hnd1 (he ▸ List.mem_map_of_mem Prod.fst hp)
        simp [hsh, variantFor, hne]
      rw [List.countP_cons, hzero]
      simp [hfull]
    · have hsimple : v1 = TemplateType.Simple := by
        rw [hv1]; simp [variantFor, h]
      have hmem2 : pref ∈ keys rest := by
        have : pref ∈ k1 :: keys rest := hm
        rcases List.mem_cons.mp this with h1 | h1
        · exact absurd h1.symm h
        · exact h1
      rw [List.countP_cons,
        ih hnd2 hmem2 (fun p hp => hshape p (List.mem_cons_of_mem _ hp))]
      simp [hsimple]

theorem determine_eq_assignFold (cfg : Config) (a b : String)
    (t : List String) :
    determine_config_assignments cfg (a :: b :: t)
      = assignFold cfg.display.preferred_monitor (a :: b :: t) := rfl

/-! ### Lemmas about parse_monitors -/

theorem foldl_push_eq_filterMap (wm : WindowManager) (lines : List String)
    (acc : List String) :
    lines.foldl
      (fun acc line =>
        match extractLine wm line with
        | some m => acc ++ [m]
        | none => acc) acc
    = acc ++ lines.filterMap (extractLine wm) := by
  induction lines generalizing acc with
  | nil => simp
  | cons x xs ih =>
    rw [List.foldl_cons, ih]
    cases hx : extractLine wm x with
    | none => simp [List.filterMap_cons, hx]
    | some m => simp [List.filterMap_cons, hx]

/-! ### Lemmas about comment stripping -/

theorem copyStringLit_append (s rest : List Char) (h1 : '"' ∉ s)
    (h2 : '\\' ∉ s) :
    copyStringLit (s ++ '"' :: rest) false = (s ++ ['"'], rest) := by
  induction s with
  | nil => simp [copyStringLit]
  | cons c cs ih =>
    rw [List.mem_cons] at h1 h2
    push_neg at h1 h2
    have hq : c ≠ '"' := fun he => h1.1 he.symm
    have hb : c ≠ '\\' := fun he => h2.1 he.symm
    simp only [List.cons_append, copyStringLit, if_neg hb, if_neg hq,
      Bool.false_eq_true, if_false, List.append_eq, ih h1.2 h2.2]

/-! ### Derived facts about assignFold -/

theorem assignFold_nodup (pref : String) (l : List String) :
    (keys (assignFold pref l)).Nodup := by
  unfold assignFold
  exact nodup_keys_foldl pref l [] (by simp [keys])

theorem assignFold_mem_keys (pref : String) (l : List String) (a : String) :
    a ∈ keys (assignFold pref l) ↔ a ∈ l := by
  unfold assignFold
  rw [mem_keys_foldl]
  simp [keys]

theorem assignFold_shape (pref : String) (l : List String) :
    ∀ p ∈ assignFold pref l, p.2 = variantFor pref p.1 := by
  unfold assignFold
  exact shape_foldl pref l [] (by simp)

/-! ## Claim theorems -/

/-- C1: `should_regenerate` returns true exactly when the cache is absent,
the generated files are missing, the template hash changed, the preferred
monitor changed, or the monitor lists differ — where, as the code compares
the two lists after sorting, "differ" means differing as *multisets*
(order-insensitive but multiplicity-sensitive), not as sets as the claim
states. -/
theorem C1_should_regenerate_true_iff (cache : Option CacheEntry)
    (th : String) (mons : List String) (pref : String) (gen : Bool) :
    should_regenerate cache th mons pref gen = true ↔
      (cache = none ∨ gen = false
        ∨ ∃ c, cache = some c
            ∧ (c.template_hash ≠ th ∨ c.preferred_monitor ≠ pref
               ∨ ¬ c.monitors.Perm mons)) := by
  cases cache with
  | none => simp [should_regenerate]
  | some c =>
    have hperm := sortStrings_eq_iff_perm c.monitors mons
    cases gen with
    | false => simp [should_regenerate]
    | true =>
      by_cases h1 : c.template_hash = th
      · by_cases h2 : c.preferred_monitor = pref
        · by_cases h3 : sortStrings c.monitors = sortStrings mons
          · simp [should_regenerate, h1, h2, h3, hperm.mp h3]
          · have hl : should_regenerate (some c) th mons pref true = true := by
              simp [should_regenerate, h1, h2, h3]
            have hr : ¬ c.monitors.Perm mons := fun hp => h3 (hperm.mpr hp)
            constructor
            · intro _
              exact Or.inr (Or.inr ⟨c, rfl, Or.inr (Or.inr hr)⟩)
            · intro _
              exact hl
        · simp [should_regenerate, h1, h2]
      · simp [should_regenerate, h1]

/-- C1 fails as stated: a cache whose monitor list equals the target list
as a *set* but not as a multiset still triggers regeneration. -/
theorem C1_counterexample :
    should_regenerate (some ⟨"h", ["A", "A"], "P", 0⟩) "h" ["A"] "P" true = true
    ∧ (["A", "A"] : List String).toFinset = (["A"] : List String).toFinset := by
  refine ⟨by decide, by decide⟩

/-- C2 (amended): when hash and preferred monitor match, the generated files
exist, and the monitor lists agree as multisets (same elements with the same
multiplicity, in any order), `should_regenerate` returns false. -/
theorem C2_regen_false_of_multiset_match (c : CacheEntry) (th pref : String)
    (mons : List String) (h1 : c.template_hash = th)
    (h2 : c.preferred_monitor = pref) (h3 : c.monitors.Perm mons) :
    should_regenerate (some c) th mons pref true = false := by
  have hs : sortStrings c.monitors = sortStrings mons :=
    (sortStrings_eq_iff_perm _ _).mpr h3
  simp [should_regenerate, h1, h2, hs]

/-- C2 witness: a permuted but multiset-equal monitor list yields false. -/
theorem C2_witness :
    should_regenerate (some ⟨"h2w", ["A", "B"], "A", 0⟩) "h2w" ["B", "A"] "A"
      true = false :=
  C2_regen_false_of_multiset_match ⟨"h2w", ["A", "B"], "A", 0⟩ "h2w" "A"
    ["B", "A"] rfl rfl (by decide)

/-- C2 fails as stated: set-equal lists with different repetition counts
(equal membership "regardless of repetition") still regenerate. -/
theorem C2_counterexample :
    should_regenerate (some ⟨"hash", ["eDP-1", "eDP-1"], "eDP-1", 0⟩) "hash"
        ["eDP-1"] "eDP-1" true = true
    ∧ (["eDP-1", "eDP-1"] : List String).toFinset
        = (["eDP-1"] : List String).toFinset := by
  refine ⟨by decide, by decide⟩

/-- C3: the loader hands `from_comment` the trimmed line still carrying its
leading `//`, so `TPL:FULL` and `TPL:SIMPLE` are found by substring search,
but `strip_prefix("TPL:")` never fires on a comment line: the marker
`TPL:clock` yields no variant at all (the `Custom` branch would only fire
on a line not starting with `//`). -/
theorem C3_custom_marker_dropped :
    TemplateType.from_comment "// TPL:clock" = none
    ∧ TemplateType.from_comment "// TPL:FULL" = some TemplateType.Full
    ∧ TemplateType.from_comment "// TPL:SIMPLE" = some TemplateType.Simple
    ∧ collectMarkers "// TPL:clock\n[]" = []
    ∧ TemplateType.from_comment "TPL:clock"
        = some (TemplateType.Custom "clock") := by
  refine ⟨by decide, by decide, by decide, by decide, by decide⟩

/-- C4 fails as stated: with two connected monitors and a preferred monitor
that is not connected, no monitor at all receives Full. -/
theorem C4_counterexample :
    determine_config_assignments ⟨⟨"C", [], "multiple"⟩⟩ ["A", "B"]
      = [("A", TemplateType.Simple), ("B", TemplateType.Simple)]
    ∧ (determine_config_assignments ⟨⟨"C", [], "multiple"⟩⟩ ["A", "B"]).countP
        (fun p => decide (p.2 = TemplateType.Full)) = 0 := by
  refine ⟨by decide, by decide⟩

/-- C4 (amended): a single connected monitor receives Full; with more than
one connected monitor, *provided the preferred monitor is connected*,
exactly one entry of the assignment carries Full and every monitor other
than the preferred one carries Simple. -/
theorem C4_exactly_one_full (cfg : Config) (connected : List String) :
    (∀ m, connected = [m] →
      determine_config_assignments cfg connected = [(m, TemplateType.Full)])
    ∧ (1 < connected.length →
        cfg.display.preferred_monitor ∈ connected →
          (determine_config_assignments cfg connected).countP
              (fun p => decide (p.2 = TemplateType.Full)) = 1
          ∧ ∀ p ∈ determine_config_assignments cfg connected,
              p.1 ≠ cfg.display.preferred_monitor
                → p.2 = TemplateType.Simple) := by
  constructor
  · rintro m rfl
    rfl
  · intro hlen hmem
    rcases connected with _ | ⟨a, _ | ⟨b, t⟩⟩
    · simp at hlen
    · simp at hlen
    · rw [determine_eq_assignFold]
      refine ⟨countP_full _ _ (assignFold_nodup _ _)
        ((assignFold_mem_keys _ _ _).mpr hmem) (assignFold_shape _ _), ?_⟩
      intro p hp hne
      rw [assignFold_shape _ _ p hp]
      simp [variantFor, hne]

/-- C4 witness: two monitors with the preferred one connected give exactly
one Full entry. -/
theorem C4_witness :
    (determine_config_assignments ⟨⟨"B", [], "multiple"⟩⟩ ["A", "B"]).countP
        (fun p => decide (p.2 = TemplateType.Full)) = 1 :=
  ((C4_exactly_one_full ⟨⟨"B", [], "multiple"⟩⟩ ["A", "B"]).2 (by decide)
    (by decide)).1

/-- C5: for any configuration (any mode, any preferred value) a singleton
connected list maps its monitor to Full, and for a connected list of length
at least two each connected monitor maps to Full exactly if it equals the
preferred monitor and to Simple otherwise. -/
theorem C5_assignment_rule (cfg : Config) (m : String)
    (connected : List String) (h : 2 ≤ connected.length) :
    determine_config_assignments cfg [m] = [(m, TemplateType.Full)]
    ∧ ∀ k ∈ connected,
        lookupA k (determine_config_assignments cfg connected)
          = some (if k = cfg.display.preferred_monitor then TemplateType.Full
              else TemplateType.Simple) := by
  constructor
  · rfl
  · intro k hk
    rcases connected with _ | ⟨a, _ | ⟨b, t⟩⟩
    · simp at h
    · simp at h
    · rw [determine_eq_assignFold, lookupA_assignFold _ _ _ hk]
      rfl

/-- C5 witness: connected = ["A","B"], preferred = "B" gives A → Simple
and B → Full. -/
theorem C5_witness :
    lookupA "A" (determine_config_assignments ⟨⟨"B", [], "multiple"⟩⟩
        ["A", "B"]) = some TemplateType.Simple
    ∧ lookupA "B" (determine_config_assignments ⟨⟨"B", [], "multiple"⟩⟩
        ["A", "B"]) = some TemplateType.Full := by
  constructor
  · have h := (C5_assignment_rule ⟨⟨"B", [], "multiple"⟩⟩ "X" ["A", "B"]
      (by decide)).2 "A" (by decide)
    simpa using h
  · have h := (C5_assignment_rule ⟨⟨"B", [], "multiple"⟩⟩ "X" ["A", "B"]
      (by decide)).2 "B" (by decide)
    simpa using h

/-- C6 fails as stated: in single mode the narrowed list is computed and
used for the launch path, but `generate_configs` is invoked with the full
connected list, so generation also assigns the non-preferred monitor. -/
theorem C6_counterexample :
    (launch_waybar_plan ⟨⟨"A", ["A", "B"], "single"⟩⟩ ["A", "B"]).genMonitors
        = ["A", "B"]
    ∧ monitors_to_use ⟨⟨"A", ["A", "B"], "single"⟩⟩ ["A", "B"] = ["A"]
    ∧ lookupA "B" (determine_config_assignments ⟨⟨"A", ["A", "B"], "single"⟩⟩
        ((launch_waybar_plan ⟨⟨"A", ["A", "B"], "single"⟩⟩
          ["A", "B"]).genMonitors))
        = some TemplateType.Simple := by
  refine ⟨by decide, by decide, by decide⟩

/-- C6 (amended): in single mode the caller narrows the list to the
preferred monitor (or the first detected one) and hands the narrowed list
to `launch_waybar_instances`, but `generate_configs` receives the full
connected list, so generation operates on all connected monitors. -/
theorem C6_single_mode_narrowing (cfg : Config) (connected : List String)
    (h : cfg.display.mode = "single") :
    monitors_to_use cfg connected
      = (if cfg.display.preferred_monitor ∈ connected
          then [cfg.display.preferred_monitor] else [connected.headD ""])
    ∧ (launch_waybar_plan cfg connected).launchMonitors
        = monitors_to_use cfg connected
    ∧ (launch_waybar_plan cfg connected).genMonitors = connected := by
  refine ⟨?_, rfl, rfl⟩
  simp [monitors_to_use, h]

/-- C6 witness: single mode still hands the full connected list to the
generation path. -/
theorem C6_witness :
    (launch_waybar_plan ⟨⟨"A", [], "single"⟩⟩ ["B", "A"]).genMonitors
      = ["B", "A"] :=
  (C6_single_mode_narrowing ⟨⟨"A", [], "single"⟩⟩ ["B", "A"] rfl).2.2

/-- C7: when the stripper meets a double-quoted string literal whose body
has no quote and no backslash, the body — including any `//` — is copied
verbatim, and stripping continues after the closing quote. -/
theorem C7_string_literal_verbatim (s rest : List Char) (h1 : '"' ∉ s)
    (h2 : '\\' ∉ s) :
    stripComments ('"' :: (s ++ '"' :: rest))
      = '"' :: (s ++ '"' :: stripComments rest) := by
  have hstep : stripComments ('"' :: (s ++ '"' :: rest))
      = '"' :: ((copyStringLit (s ++ '"' :: rest) false).1
          ++ stripComments (copyStringLit (s ++ '"' :: rest) false).2) := by
    simp [stripComments]
  rw [hstep, copyStringLit_append s rest h1 h2]
  simp

/-- C7 witness: the literal `"http://example.com"` passes through comment
stripping unchanged. -/
theorem C7_witness :
    stripComments ('"' :: ("http://example.com".data ++ '"' :: " // tail".data))
      = '"' :: ("http://example.com".data ++ '"' :: stripComments " // tail".data) :=
  C7_string_literal_verbatim "http://example.com".data " // tail".data
    (by decide) (by decide)

/-- C8 fails as stated: two lists of equal length with equal element sets
but different multiplicities are still reported as matching. -/
theorem C8_counterexample :
    lists_match ["A", "A", "B"] ["A", "B", "B"] = true
    ∧ (["A", "A", "B"] : List String).count "A" = 2
    ∧ (["A", "B", "B"] : List String).count "A" = 1 := by
  refine ⟨by decide, by decide, by decide⟩

/-- C8 (amended): `lists_match a b` is true exactly when the lengths are
equal and the two lists have the same members (multiplicity ignored); the
two examples of the claim hold. -/
theorem C8_lists_match_iff :
    (∀ a b : List String,
      lists_match a b = true
        ↔ (a.length = b.length ∧ ∀ x, x ∈ a ↔ x ∈ b))
    ∧ lists_match ["eDP-1", "HDMI-A-1"] ["HDMI-A-1", "eDP-1"] = true
    ∧ lists_match ["eDP-1", "HDMI-A-1"] ["eDP-1"] = false := by
  refine ⟨?_, by decide, by decide⟩
  intro a b
  unfold lists_match
  by_cases h : a.length = b.length
  · rw [if_neg (fun hc => hc h)]
    simp [h, decide_eq_true_eq, Finset.ext_iff, List.mem_toFinset]
  · rw [if_pos h]
    simp [h]

/-- C9: `parse_monitors` fails with the no-monitors error exactly when the
per-line extraction rules match no line of the input, and otherwise returns
the extracted identifiers in line order, without deduplication. -/
theorem C9_parse_monitors_contract (wm : WindowManager) (output : String) :
    (parse_monitors wm output = Except.error "No monitors were detected"
      ↔ extractedMonitors wm output = [])
    ∧ (extractedMonitors wm output ≠ []
      → parse_monitors wm output = Except.ok (extractedMonitors wm output)) := by
  unfold extractedMonitors
  have key := foldl_push_eq_filterMap wm (rustLines output) []
  have hp : parse_monitors wm output
      = (if ((rustLines output).filterMap (extractLine wm)).isEmpty
          then (Except.error "No monitors were detected"
            : Except String (List String))
          else Except.ok ((rustLines output).filterMap (extractLine wm))) := by
    simp only [parse_monitors]
    rw [key, List.nil_append]
  rw [hp]
  rcases hl : (rustLines output).filterMap (extractLine wm) with _ | ⟨x, xs⟩
  · simp
  · simp

/-- C9 witness: the Hyprland sample input parses to its two monitors. -/
theorem C9_witness :
    parse_monitors WindowManager.Hyprland hyprTestInput
      = Except.ok ["eDP-1", "HDMI-A-1"] := by
  have e : extractedMonitors WindowManager.Hyprland hyprTestInput
      = ["eDP-1", "HDMI-A-1"] := by decide
  have h := (C9_parse_monitors_contract WindowManager.Hyprland hyprTestInput).2
    (by rw [e]; exact fun hc => List.noConfusion hc)
  rw [h, e]

/-- C10: for every configuration and connected list the assignment's key
set is exactly the set of connected identifiers, its keys are distinct, and
every assigned variant is Full or Simple — never Custom. -/
theorem C10_assignment_domain (cfg : Config) (connected : List String) :
    (∀ k, k ∈ keys (determine_config_assignments cfg connected)
        ↔ k ∈ connected)
    ∧ (keys (determine_config_assignments cfg connected)).Nodup
    ∧ ∀ p ∈ determine_config_assignments cfg connected,
        p.2 = TemplateType.Full ∨ p.2 = TemplateType.Simple := by
  rcases connected with _ | ⟨a, _ | ⟨b, t⟩⟩
  · refine ⟨?_, ?_, ?_⟩ <;>
      simp [determine_config_assignments, assignFold, keys]
  · refine ⟨?_, ?_, ?_⟩
    · intro k
      simp [determine_config_assignments, keys]
    · simp [determine_config_assignments, keys]
    · intro p hp
      simp only [determine_config_assignments, List.mem_singleton] at hp
      subst hp
      exact Or.inl rfl
  · rw [determine_eq_assignFold]
    refine ⟨?_, assignFold_nodup _ _, ?_⟩
    · intro k
      exact assignFold_mem_keys _ _ _
    · intro p hp
      rw [assignFold_shape _ _ p hp]
      unfold variantFor
      split
      · exact Or.inl rfl
      · exact Or.inr rfl

end Waybar
